import Mathlib

/-!
Verification of the `mysteriouspants/retry` backoff policy (`src/lib.rs`).

The crate defines `ExponentialBackoff<T, E>`: a configuration structure holding
a retry predicate, a `u8` attempt cap `max_retries`, and three `f32` delay
parameters `constant`, `coefficient`, `exponent`.  Its `retry` method runs a
fallible operation in a loop, pre-incrementing a `u8` counter, exiting when the
counter equals `max_retries` or the predicate rejects the result
(short-circuit `||`), and otherwise sleeping
`constant + coefficient * count.powf(exponent)` milliseconds (`as u64` cast).

Embedding choices:
* the `f32` parameters are modelled as exact rationals, and `f32::powf` is an
  arbitrary parameter function `fpow : ℚ → ℚ → ℚ`, so every theorem below
  holds for every possible rounding behaviour of the float power;
* the `u8` counter uses wrap-around arithmetic (`% 256`), as in release-mode
  Rust;
* the `as u64` cast saturates: negatives clamp to `0`, the fractional part is
  truncated, values beyond `2 ^ 64 - 1` clamp to the maximum;
* the operation (an `FnMut` closure) is modelled as an oracle `op : Nat → Result`
  giving the value produced by the n-th invocation (1-based), and `retry` is
  instrumented to return, besides the source's return value, the number of
  operation invocations, the number of `should_retry` invocations, and the
  list of sleeps performed (in milliseconds), in order.
-/

namespace RetrySpec

/-- Rust's `Result<T, E>`, the value produced by one attempt. -/
inductive Result (T E : Type) where
  | ok : T → Result T E
  | err : E → Result T E
deriving DecidableEq

/-- The saturating Rust `as u64` cast applied to the (rational-modelled) delay:
negative values clamp to `0`, the fractional part is truncated, values beyond
`2 ^ 64 - 1` clamp to the maximum.  Total: it never fails. -/
def toU64 (q : ℚ) : Nat :=
  if q < 0 then 0 else min q.floor.toNat (2 ^ 64 - 1)

/-- Shallow embedding of `ExponentialBackoff<T, E>`: same fields, same order.
`max_retries` is the value of the `u8` field (so `≤ 255` for any policy that
exists in the source language); the three `f32` parameters are rationals. -/
structure ExponentialBackoff (T E : Type) where
  should_retry : Result T E → Bool
  max_retries : Nat
  constant : ℚ
  coefficient : ℚ
  exponent : ℚ

/-- `ExponentialBackoff::new`: stores the five arguments verbatim. -/
def ExponentialBackoff.new {T E : Type} (max_retries : Nat)
    (constant coefficient exponent : ℚ)
    (should_retry : Result T E → Bool) : ExponentialBackoff T E :=
  ⟨should_retry, max_retries, constant, coefficient, exponent⟩

/-- `ExponentialBackoff::new_with_defaults`: `new(7, 0.0, 1000.0, 0.5, _)`. -/
def ExponentialBackoff.new_with_defaults {T E : Type}
    (should_retry : Result T E → Bool) : ExponentialBackoff T E :=
  ExponentialBackoff.new 7 0 1000 (1/2) should_retry

/-- The delay expression of the loop body:
`self.constant + self.coefficient * (retry_count as f32).powf(self.exponent)`,
with `powf` abstracted as `fpow`. -/
def ExponentialBackoff.backoff_time {T E : Type} (self : ExponentialBackoff T E)
    (fpow : ℚ → ℚ → ℚ) (retry_count : Nat) : ℚ :=
  self.constant + self.coefficient * fpow (retry_count : ℚ) self.exponent

/-- Milliseconds slept after (non-terminal) attempt number `attempt`:
`Duration::from_millis(backoff_time as u64)` where the `u8` counter holds
`attempt % 256`. -/
def sleepMs {T E : Type} (self : ExponentialBackoff T E) (fpow : ℚ → ℚ → ℚ)
    (attempt : Nat) : Nat :=
  toU64 (self.backoff_time fpow (attempt % 256))

/-- The loop's exit condition at attempt `k` (1-based, absolute count; the `u8`
counter holds `k % 256`): `retry_count == self.max_retries || !(self.should_retry)(&result)`. -/
def stops {T E : Type} (self : ExponentialBackoff T E) (op : Nat → Result T E)
    (k : Nat) : Bool :=
  decide (k % 256 = self.max_retries) || !(self.should_retry (op k))

/-- Instrumented observation of one `retry` call: the returned `Result`, how
many times the operation ran, how many times `should_retry` ran, and the list
of sleeps (ms) between attempts, in order. -/
structure RetryTrace (T E : Type) where
  result : Result T E
  attempts : Nat
  predCalls : Nat
  delays : List Nat

/-- One unfolding of the source loop per unit of fuel.  `n` is the number of
attempts made before entering the loop body (so the body uses attempt `n + 1`);
the `u8` counter holds `(n + 1) % 256`.  The exit condition and the
short-circuit order (cap first, predicate second) match the source. -/
def retryGo {T E : Type} (self : ExponentialBackoff T E) (fpow : ℚ → ℚ → ℚ)
    (op : Nat → Result T E) : Nat → Nat → Option (RetryTrace T E)
  | _, 0 => none
  | n, fuel + 1 =>
    if (n + 1) % 256 = self.max_retries then
      some ⟨op (n + 1), 1, 0, []⟩
    else if self.should_retry (op (n + 1)) = false then
      some ⟨op (n + 1), 1, 1, []⟩
    else
      match retryGo self fpow op (n + 1) fuel with
      | none => none
      | some t =>
        some ⟨t.result, t.attempts + 1, t.predCalls + 1,
          sleepMs self fpow (n + 1) :: t.delays⟩

/-- `ExponentialBackoff::retry`.  Fuel `256` always suffices: the `u8` counter
revisits every residue within 256 steps, so the cap check fires at the latest
when the counter wraps to `max_retries` (the fallback default is never
reached; see `retry_spec`). -/
def ExponentialBackoff.retry {T E : Type} (self : ExponentialBackoff T E)
    (fpow : ℚ → ℚ → ℚ) (op : Nat → Result T E) : RetryTrace T E :=
  (retryGo self fpow op 0 256).getD ⟨op 1, 0, 0, []⟩

/-! Concrete fixtures used by the witness theorems. -/

/-- "Retry while the result is an error", as in the crate's tests. -/
def w_pred : Result Bool Bool → Bool := fun r =>
  match r with
  | Result.ok _ => false
  | Result.err _ => true

/-- Policy mirroring the crate's test configuration `new(7, 0.0, 1.0, 2.0, _)`. -/
def p1 : ExponentialBackoff Bool Bool := ExponentialBackoff.new 7 0 1 2 w_pred

/-- Operation failing on attempts 1 and 2 and succeeding from attempt 3 on. -/
def op1 : Nat → Result Bool Bool := fun k =>
  if k < 3 then Result.err false else Result.ok true

/-- Operation that always fails. -/
def op2 : Nat → Result Bool Bool := fun _ => Result.err false

/-- A concrete stand-in for `f32::powf` (squares its base). -/
def fpow1 : ℚ → ℚ → ℚ := fun x _ => x * x

/-- A concrete stand-in for `f32::powf` (constantly zero). -/
def fpow0 : ℚ → ℚ → ℚ := fun _ _ => 0

/-- Policy with `max_retries = 1` and an always-true predicate behaviour on
errors (scenario C of the spec). -/
def p6 : ExponentialBackoff Bool Bool := ExponentialBackoff.new 1 0 1000 (1/2) w_pred

/-- An always-true predicate. -/
def w9 : Result Bool Bool → Bool := fun _ => true

/-- Policy with a negative `constant`, used to exercise the clamping cast. -/
def p9 : ExponentialBackoff Bool Bool := ExponentialBackoff.new 3 (-5) 0 1 w9

/-- Policy with `max_retries = 0` and an always-true predicate. -/
def p10 : ExponentialBackoff Bool Bool := ExponentialBackoff.new 0 0 0 0 (fun _ => true)

/-- Policy that exits by exhaustion (predicate always true, cap 2). -/
def p8a : ExponentialBackoff Bool Bool := ExponentialBackoff.new 2 0 1 1 (fun _ => true)

/-- Policy that exits by predicate rejection on the first attempt. -/
def p8b : ExponentialBackoff Bool Bool := ExponentialBackoff.new 7 0 1 1 (fun _ => false)

/-- The default-constructed policy. -/
def default_policy : ExponentialBackoff Bool Bool :=
  ExponentialBackoff.new_with_defaults w_pred

/-! Core characterisation of the loop. -/

/-- Everything a successful `retryGo` run satisfies: at least one attempt, the
returned value is the last operation result, the exit condition holds at the
last attempt and at no earlier one, the delays are exactly the backoff values
of the non-terminal attempts in order, and the predicate ran once per attempt
except on a final attempt that hit the cap. -/
theorem retryGo_spec {T E : Type} (self : ExponentialBackoff T E)
    (fpow : ℚ → ℚ → ℚ) (op : Nat → Result T E) :
    ∀ fuel n t, retryGo self fpow op n fuel = some t →
      1 ≤ t.attempts ∧
      t.result = op (n + t.attempts) ∧
      stops self op (n + t.attempts) = true ∧
      (∀ j, 1 ≤ j → j < t.attempts → stops self op (n + j) = false) ∧
      t.delays = (List.range' (n + 1) (t.attempts - 1)).map (sleepMs self fpow) ∧
      t.predCalls = (t.attempts - 1) +
        (if (n + t.attempts) % 256 = self.max_retries then 0 else 1) := by
  intro fuel
  induction fuel with
  | zero =>
      intro n t h
      simp [retryGo] at h
  | succ f ih =>
      intro n t h
      simp only [retryGo] at h
      by_cases h1 : (n + 1) % 256 = self.max_retries
      · rw [if_pos h1] at h
        simp only [Option.some.injEq] at h
        subst h
        refine ⟨le_refl 1, rfl, ?_, ?_, rfl, ?_⟩
        · simp [stops, h1]
        · exact fun j hj1 hj2 => absurd (show j < 1 from hj2) (by omega)
        · simp [h1]
      · rw [if_neg h1] at h
        by_cases h2 : self.should_retry (op (n + 1)) = false
        · rw [if_pos h2] at h
          simp only [Option.some.injEq] at h
          subst h
          refine ⟨le_refl 1, rfl, ?_, ?_, rfl, ?_⟩
          · simp [stops, h2]
          · exact fun j hj1 hj2 => absurd (show j < 1 from hj2) (by omega)
          · simp [h1]
        · rw [if_neg h2] at h
          cases hrec : retryGo self fpow op (n + 1) f with
          | none =>
              rw [hrec] at h
              simp at h
          | some t' =>
              rw [hrec] at h
              simp only [Option.some.injEq] at h
              subst h
              obtain ⟨ih1, ih2, ih3, ih4, ih5, ih6⟩ := ih (n + 1) t' hrec
              have hpred : self.should_retry (op (n + 1)) = true := by
                cases hb : self.should_retry (op (n + 1)) with
                | false => exact absurd hb h2
                | true => rfl
              refine ⟨show 1 ≤ t'.attempts + 1 by omega, ?_, ?_, ?_, ?_, ?_⟩
              · show t'.result = op (n + (t'.attempts + 1))
                rw [ih2]
                congr 1
                omega
              · show stops self op (n + (t'.attempts + 1)) = true
                have harith : n + (t'.attempts + 1) = (n + 1) + t'.attempts := by omega
                rw [harith]
                exact ih3
              · intro j hj1 hj2
                rcases Nat.eq_or_lt_of_le hj1 with hj | hj
                · rw [← hj]
                  simp [stops, h1, hpred]
                · have hj' : 1 ≤ j - 1 := by omega
                  have hlt : j - 1 < t'.attempts := by
                    have : j < t'.attempts + 1 := hj2
                    omega
                  have hmin := ih4 (j - 1) hj' hlt
                  have harith : (n + 1) + (j - 1) = n + j := by omega
                  rwa [harith] at hmin
              · show sleepMs self fpow (n + 1) :: t'.delays =
                  (List.range' (n + 1) ((t'.attempts + 1) - 1)).map (sleepMs self fpow)
                have ha : (t'.attempts + 1) - 1 = (t'.attempts - 1) + 1 := by omega
                rw [ha, List.range'_succ, List.map_cons, ih5]
              · show t'.predCalls + 1 = ((t'.attempts + 1) - 1) +
                  (if (n + (t'.attempts + 1)) % 256 = self.max_retries then 0 else 1)
                have harith : n + (t'.attempts + 1) = (n + 1) + t'.attempts := by omega
                rw [harith]
                by_cases hc : ((n + 1) + t'.attempts) % 256 = self.max_retries
                · rw [if_pos hc]
                  rw [if_pos hc] at ih6
                  omega
                · rw [if_neg hc]
                  rw [if_neg hc] at ih6
                  omega

/-- The loop produces a value whenever the fuel reaches the next point where
the wrapped counter equals `max_retries`. -/
theorem retryGo_isSome {T E : Type} (self : ExponentialBackoff T E)
    (fpow : ℚ → ℚ → ℚ) (op : Nat → Result T E) :
    ∀ fuel n, (∃ k, 1 ≤ k ∧ k ≤ fuel ∧ (n + k) % 256 = self.max_retries) →
      ∃ t, retryGo self fpow op n fuel = some t := by
  intro fuel
  induction fuel with
  | zero =>
      intro n hk
      obtain ⟨k, hk1, hk2, _⟩ := hk
      omega
  | succ f ih =>
      intro n hk
      obtain ⟨k, hk1, hk2, hk3⟩ := hk
      by_cases h1 : (n + 1) % 256 = self.max_retries
      · exact ⟨⟨op (n + 1), 1, 0, []⟩, by simp only [retryGo]; rw [if_pos h1]⟩
      · by_cases h2 : self.should_retry (op (n + 1)) = false
        · exact ⟨⟨op (n + 1), 1, 1, []⟩, by
            simp only [retryGo]
            rw [if_neg h1, if_pos h2]⟩
        · have hkne : k ≠ 1 := by
            intro he
            rw [he] at hk3
            exact h1 hk3
          have hnext : ∃ k', 1 ≤ k' ∧ k' ≤ f ∧ ((n + 1) + k') % 256 = self.max_retries := by
            refine ⟨k - 1, by omega, by omega, ?_⟩
            have harith : (n + 1) + (k - 1) = n + k := by omega
            rw [harith]
            exact hk3
          obtain ⟨t', ht'⟩ := ih (n + 1) hnext
          refine ⟨⟨t'.result, t'.attempts + 1, t'.predCalls + 1,
            sleepMs self fpow (n + 1) :: t'.delays⟩, ?_⟩
          simp only [retryGo]
          rw [if_neg h1, if_neg h2, ht']

/-- Characterisation of one `retry` call, for any policy whose `max_retries`
fits in a `u8`. -/
theorem retry_spec {T E : Type} (self : ExponentialBackoff T E)
    (fpow : ℚ → ℚ → ℚ) (op : Nat → Result T E)
    (h255 : self.max_retries ≤ 255) :
    1 ≤ (self.retry fpow op).attempts ∧
    (self.retry fpow op).result = op (self.retry fpow op).attempts ∧
    stops self op (self.retry fpow op).attempts = true ∧
    (∀ j, 1 ≤ j → j < (self.retry fpow op).attempts → stops self op j = false) ∧
    (self.retry fpow op).delays =
      (List.range' 1 ((self.retry fpow op).attempts - 1)).map (sleepMs self fpow) ∧
    (self.retry fpow op).predCalls = ((self.retry fpow op).attempts - 1) +
      (if (self.retry fpow op).attempts % 256 = self.max_retries then 0 else 1) := by
  have hex : ∃ k, 1 ≤ k ∧ k ≤ 256 ∧ (0 + k) % 256 = self.max_retries := by
    rcases Nat.eq_zero_or_pos self.max_retries with h0 | hpos
    · refine ⟨256, by omega, by omega, ?_⟩
      simp [h0]
    · refine ⟨self.max_retries, hpos, by omega, ?_⟩
      rw [Nat.zero_add]
      exact Nat.mod_eq_of_lt (by omega)
  obtain ⟨t, ht⟩ := retryGo_isSome self fpow op 256 0 hex
  have hs := retryGo_spec self fpow op 256 0 t ht
  have hretry : self.retry fpow op = t := by
    simp [ExponentialBackoff.retry, ht]
  rw [hretry]
  obtain ⟨a1, a2, a3, a4, a5, a6⟩ := hs
  simp only [Nat.zero_add] at a2 a3 a4 a5 a6
  exact ⟨a1, a2, a3, a4, a5, a6⟩

/-- With `1 ≤ max_retries ≤ 255`, the run stops at the cap at the latest. -/
theorem attempts_le {T E : Type} (self : ExponentialBackoff T E)
    (fpow : ℚ → ℚ → ℚ) (op : Nat → Result T E)
    (h1 : 1 ≤ self.max_retries) (h255 : self.max_retries ≤ 255) :
    (self.retry fpow op).attempts ≤ self.max_retries := by
  obtain ⟨b1, b2, b3, b4, b5, b6⟩ := retry_spec self fpow op h255
  by_contra hlt
  push_neg at hlt
  have hfalse := b4 self.max_retries h1 hlt
  have hmod : self.max_retries % 256 = self.max_retries :=
    Nat.mod_eq_of_lt (by omega)
  simp [stops, hmod] at hfalse

/-- The number of attempts is the first attempt where the exit condition
holds. -/
theorem attempts_eq_first_stop {T E : Type} (self : ExponentialBackoff T E)
    (fpow : ℚ → ℚ → ℚ) (op : Nat → Result T E)
    (h255 : self.max_retries ≤ 255) (k : Nat) (hk1 : 1 ≤ k)
    (hstop : stops self op k = true)
    (hmin : ∀ j, 1 ≤ j → j < k → stops self op j = false) :
    (self.retry fpow op).attempts = k := by
  obtain ⟨b1, b2, b3, b4, _, _⟩ := retry_spec self fpow op h255
  rcases Nat.lt_trichotomy (self.retry fpow op).attempts k with h | h | h
  · have hfalse := hmin _ b1 h
    rw [hfalse] at b3
    exact Bool.noConfusion b3
  · exact h
  · have hfalse := b4 k hk1 h
    rw [hstop] at hfalse
    exact Bool.noConfusion hfalse

/-- Upper bound on a square root from a square bound. -/
theorem sqrt_le_of_sq_le (x u : ℝ) (hu : 0 ≤ u) (h : x ≤ u ^ 2) :
    Real.sqrt x ≤ u := by
  calc Real.sqrt x ≤ Real.sqrt (u ^ 2) := Real.sqrt_le_sqrt h
  _ = u := Real.sqrt_sq hu

/-- Lower bound on a square root from a square bound. -/
theorem le_sqrt_of_sq_le (l x : ℝ) (hl : 0 ≤ l) (h : l ^ 2 ≤ x) :
    l ≤ Real.sqrt x := by
  calc l = Real.sqrt (l ^ 2) := (Real.sqrt_sq hl).symm
  _ ≤ Real.sqrt x := Real.sqrt_le_sqrt h

/-! Claim theorems. -/

/-- C1: for every policy with `max_retries = m ≥ 1` (a `u8` value, so
`m ≤ 255`), every operation and every `should_retry` predicate, `retry`
invokes the operation at least once and at most `m` times, and returns the
`Result` produced by the last invocation. -/
theorem retry_invocation_bounds {T E : Type} (self : ExponentialBackoff T E)
    (fpow : ℚ → ℚ → ℚ) (op : Nat → Result T E)
    (h1 : 1 ≤ self.max_retries) (h255 : self.max_retries ≤ 255) :
    1 ≤ (self.retry fpow op).attempts ∧
    (self.retry fpow op).attempts ≤ self.max_retries ∧
    (self.retry fpow op).result = op (self.retry fpow op).attempts := by
  obtain ⟨b1, b2, _, _, _, _⟩ := retry_spec self fpow op h255
  exact ⟨b1, attempts_le self fpow op h1 h255, b2⟩

/-- Witness for C1 at the crate's own test configuration. -/
theorem retry_invocation_bounds_witness :
    (1 ≤ p1.max_retries ∧ p1.max_retries ≤ 255) ∧
    (1 ≤ (p1.retry fpow1 op1).attempts ∧
      (p1.retry fpow1 op1).attempts ≤ p1.max_retries ∧
      (p1.retry fpow1 op1).result = op1 (p1.retry fpow1 op1).attempts) :=
  ⟨⟨by decide, by decide⟩,
    retry_invocation_bounds p1 fpow1 op1 (by decide) (by decide)⟩

/-- C2: if `should_retry` accepts every result through attempt `m - 1`,
`retry` returns the `m`-th invocation's result unconditionally — the cap check
short-circuits, so `should_retry` is not consulted on that final attempt and
runs exactly `m - 1` times; moreover in every run `should_retry` runs at most
`m - 1` times while the operation runs at most `m` times. -/
theorem last_attempt_short_circuit {T E : Type} (self : ExponentialBackoff T E)
    (fpow : ℚ → ℚ → ℚ) (op : Nat → Result T E)
    (h1 : 1 ≤ self.max_retries) (h255 : self.max_retries ≤ 255) :
    ((∀ k, k < self.max_retries - 1 → self.should_retry (op (k + 1)) = true) →
      (self.retry fpow op).result = op self.max_retries ∧
      (self.retry fpow op).attempts = self.max_retries ∧
      (self.retry fpow op).predCalls = self.max_retries - 1) ∧
    (self.retry fpow op).predCalls ≤ self.max_retries - 1 ∧
    (self.retry fpow op).attempts ≤ self.max_retries := by
  obtain ⟨b1, b2, b3, b4, b5, b6⟩ := retry_spec self fpow op h255
  have hle := attempts_le self fpow op h1 h255
  have hmmod : self.max_retries % 256 = self.max_retries :=
    Nat.mod_eq_of_lt (by omega)
  constructor
  · intro hpred
    have hstop : stops self op self.max_retries = true := by
      simp [stops, hmmod]
    have hmin : ∀ j, 1 ≤ j → j < self.max_retries → stops self op j = false := by
      intro j hj1 hj2
      have hjmod : j % 256 = j := Nat.mod_eq_of_lt (by omega)
      have hp := hpred (j - 1) (by omega)
      rw [Nat.sub_add_cancel hj1] at hp
      have hne : j ≠ self.max_retries := by omega
      simp [stops, hjmod, hp, hne]
    have hatt := attempts_eq_first_stop self fpow op h255 self.max_retries h1 hstop hmin
    refine ⟨?_, hatt, ?_⟩
    · rw [b2, hatt]
    · rw [b6, hatt, if_pos hmmod]
      omega
  · refine ⟨?_, hle⟩
    rw [b6]
    by_cases hc : (self.retry fpow op).attempts % 256 = self.max_retries
    · rw [if_pos hc]
      omega
    · rw [if_neg hc]
      have hattlt : (self.retry fpow op).attempts < self.max_retries := by
        rcases Nat.lt_or_ge (self.retry fpow op).attempts self.max_retries with h | h
        · exact h
        · have heq : (self.retry fpow op).attempts = self.max_retries :=
            le_antisymm hle h
          rw [heq] at hc
          exact absurd hmmod hc
      omega

/-- Witness for C2: operation always fails, predicate always retries,
`max_retries = 7`: the seventh failure is returned after six predicate calls. -/
theorem last_attempt_short_circuit_witness :
    (1 ≤ p1.max_retries ∧ p1.max_retries ≤ 255) ∧
    ((p1.retry fpow1 op2).result = op2 p1.max_retries ∧
      (p1.retry fpow1 op2).attempts = p1.max_retries ∧
      (p1.retry fpow1 op2).predCalls = p1.max_retries - 1) ∧
    ((p1.retry fpow1 op2).predCalls ≤ p1.max_retries - 1 ∧
      (p1.retry fpow1 op2).attempts ≤ p1.max_retries) :=
  ⟨⟨by decide, by decide⟩,
    (last_attempt_short_circuit p1 fpow1 op2 (by decide) (by decide)).1
      (fun _ _ => rfl),
    (last_attempt_short_circuit p1 fpow1 op2 (by decide) (by decide)).2⟩

/-- C3: if the predicate accepts the results of attempts `1..k-1` for retry
and rejects the `k`-th result (`k ≤ m`), `retry` returns exactly the `k`-th
result after exactly `k` invocations, with exactly the `k - 1` delays of the
earlier attempts and none after the `k`-th. -/
theorem predicate_stop_exact {T E : Type} (self : ExponentialBackoff T E)
    (fpow : ℚ → ℚ → ℚ) (op : Nat → Result T E) (k : Nat)
    (h1 : 1 ≤ self.max_retries) (h255 : self.max_retries ≤ 255)
    (hk1 : 1 ≤ k) (hkm : k ≤ self.max_retries)
    (hpred : ∀ j, j < k - 1 → self.should_retry (op (j + 1)) = true)
    (hstopk : self.should_retry (op k) = false) :
    (self.retry fpow op).result = op k ∧
    (self.retry fpow op).attempts = k ∧
    (self.retry fpow op).delays = (List.range' 1 (k - 1)).map (sleepMs self fpow) := by
  obtain ⟨b1, b2, b3, b4, b5, b6⟩ := retry_spec self fpow op h255
  have hstop : stops self op k = true := by
    simp [stops, hstopk]
  have hmin : ∀ j, 1 ≤ j → j < k → stops self op j = false := by
    intro j hj1 hj2
    have hjmod : j % 256 = j := Nat.mod_eq_of_lt (by omega)
    have hp := hpred (j - 1) (by omega)
    rw [Nat.sub_add_cancel hj1] at hp
    have hne : j ≠ self.max_retries := by omega
    simp [stops, hjmod, hp, hne]
  have hatt := attempts_eq_first_stop self fpow op h255 k hk1 hstop hmin
  exact ⟨by rw [b2, hatt], hatt, by rw [b5, hatt]⟩

/-- Witness for C3: two failures then a success, accepted on attempt 3. -/
theorem predicate_stop_exact_witness :
    (1 ≤ p1.max_retries ∧ p1.max_retries ≤ 255 ∧ 1 ≤ 3 ∧ 3 ≤ p1.max_retries) ∧
    ((p1.retry fpow1 op1).result = op1 3 ∧
      (p1.retry fpow1 op1).attempts = 3 ∧
      (p1.retry fpow1 op1).delays = (List.range' 1 (3 - 1)).map (sleepMs p1 fpow1)) :=
  ⟨⟨by decide, by decide, by decide, by decide⟩,
    predicate_stop_exact p1 fpow1 op1 3 (by decide) (by decide) (by decide)
      (by decide) (by decide) (by decide)⟩

/-- C4: the delay after each non-terminal attempt `k` is
`constant + coefficient * k ^ exponent` milliseconds truncated to a whole
number (the saturating `as u64` cast), with `^` the modelled `f32::powf`; the
delay list holds exactly one such entry per non-terminal attempt `1..attempts-1`
in order, so no delay precedes the first attempt or follows the final one. -/
theorem delay_formula {T E : Type} (self : ExponentialBackoff T E)
    (fpow : ℚ → ℚ → ℚ) (op : Nat → Result T E)
    (h1 : 1 ≤ self.max_retries) (h255 : self.max_retries ≤ 255) :
    (self.retry fpow op).delays =
      (List.range' 1 ((self.retry fpow op).attempts - 1)).map
        (fun (k : ℕ) => toU64 (self.constant + self.coefficient * fpow (k : ℚ) self.exponent)) ∧
    (self.retry fpow op).delays.length = (self.retry fpow op).attempts - 1 := by
  obtain ⟨b1, b2, b3, b4, b5, b6⟩ := retry_spec self fpow op h255
  have hle := attempts_le self fpow op h1 h255
  constructor
  · rw [b5]
    apply List.map_congr_left
    intro a ha
    rw [List.mem_range'_1] at ha
    obtain ⟨ha1, ha2⟩ := ha
    have hamod : a % 256 = a := Nat.mod_eq_of_lt (by omega)
    simp [sleepMs, ExponentialBackoff.backoff_time, hamod]
  · rw [b5, List.length_map, List.length_range']

/-- Witness for C4 at the crate's own test configuration. -/
theorem delay_formula_witness :
    (1 ≤ p1.max_retries ∧ p1.max_retries ≤ 255) ∧
    ((p1.retry fpow1 op1).delays =
      (List.range' 1 ((p1.retry fpow1 op1).attempts - 1)).map
        (fun (k : ℕ) => toU64 (p1.constant + p1.coefficient * fpow1 (k : ℚ) p1.exponent)) ∧
    (p1.retry fpow1 op1).delays.length = (p1.retry fpow1 op1).attempts - 1) :=
  ⟨⟨by decide, by decide⟩, delay_formula p1 fpow1 op1 (by decide) (by decide)⟩

/-- C6: with `max_retries = 1` the operation runs exactly once and its result
is returned unconditionally, with no delay and no `should_retry` call, for
every operation and every predicate. -/
theorem single_attempt_unconditional {T E : Type} (self : ExponentialBackoff T E)
    (fpow : ℚ → ℚ → ℚ) (op : Nat → Result T E)
    (hm : self.max_retries = 1) :
    (self.retry fpow op).attempts = 1 ∧
    (self.retry fpow op).result = op 1 ∧
    (self.retry fpow op).delays = [] ∧
    (self.retry fpow op).predCalls = 0 := by
  have h255 : self.max_retries ≤ 255 := by omega
  obtain ⟨b1, b2, b3, b4, b5, b6⟩ := retry_spec self fpow op h255
  have hstop : stops self op 1 = true := by
    simp [stops, hm]
  have hmin : ∀ j, 1 ≤ j → j < 1 → stops self op j = false := by
    intro j hj1 hj2
    omega
  have hatt := attempts_eq_first_stop self fpow op h255 1 (le_refl 1) hstop hmin
  refine ⟨hatt, by rw [b2, hatt], ?_, ?_⟩
  · rw [b5, hatt]
    simp
  · rw [b6, hatt]
    simp [hm]

/-- Witness for C6: single permitted attempt, operation always failing,
predicate always willing to retry (scenario C). -/
theorem single_attempt_unconditional_witness :
    p6.max_retries = 1 ∧
    ((p6.retry fpow1 op2).attempts = 1 ∧
      (p6.retry fpow1 op2).result = op2 1 ∧
      (p6.retry fpow1 op2).delays = [] ∧
      (p6.retry fpow1 op2).predCalls = 0) :=
  ⟨by decide, single_attempt_unconditional p6 fpow1 op2 (by decide)⟩

/-- C7: `new_with_defaults(should_retry)` equals
`new(7, 0.0, 1000.0, 0.5, should_retry)`, so its fields are `max_retries = 7`,
`constant = 0`, `coefficient = 1000`, `exponent = 0.5`. -/
theorem new_with_defaults_eq {T E : Type} (s : Result T E → Bool) :
    ExponentialBackoff.new_with_defaults s = ExponentialBackoff.new 7 0 1000 (1/2) s ∧
    (ExponentialBackoff.new_with_defaults s).max_retries = 7 ∧
    (ExponentialBackoff.new_with_defaults s).constant = 0 ∧
    (ExponentialBackoff.new_with_defaults s).coefficient = 1000 ∧
    (ExponentialBackoff.new_with_defaults s).exponent = 1/2 :=
  ⟨rfl, rfl, rfl, rfl, rfl⟩

/-- C8: every run returns exactly the value produced by the last invocation of
the operation — nothing constructed, wrapped or annotated by the policy — and
two runs whose last invocations produce the same value return equal results,
whether each exits by exhausting the cap or by predicate rejection. -/
theorem result_passthrough {T E : Type} (selfA selfB : ExponentialBackoff T E)
    (fpowA fpowB : ℚ → ℚ → ℚ) (opA opB : Nat → Result T E)
    (hA : selfA.max_retries ≤ 255) (hB : selfB.max_retries ≤ 255) :
    (selfA.retry fpowA opA).result = opA (selfA.retry fpowA opA).attempts ∧
    (selfB.retry fpowB opB).result = opB (selfB.retry fpowB opB).attempts ∧
    (opA (selfA.retry fpowA opA).attempts = opB (selfB.retry fpowB opB).attempts →
      (selfA.retry fpowA opA).result = (selfB.retry fpowB opB).result) := by
  obtain ⟨_, a2, _, _, _, _⟩ := retry_spec selfA fpowA opA hA
  obtain ⟨_, b2, _, _, _, _⟩ := retry_spec selfB fpowB opB hB
  exact ⟨a2, b2, fun h => by rw [a2, b2, h]⟩

/-- Witness for C8: an exhausted run and a predicate-stopped run over the same
always-failing operation return the same error value. -/
theorem result_passthrough_witness :
    (p8a.max_retries ≤ 255 ∧ p8b.max_retries ≤ 255) ∧
    ((p8a.retry fpow1 op2).result = op2 (p8a.retry fpow1 op2).attempts ∧
      (p8b.retry fpow1 op2).result = op2 (p8b.retry fpow1 op2).attempts ∧
      (op2 (p8a.retry fpow1 op2).attempts = op2 (p8b.retry fpow1 op2).attempts →
        (p8a.retry fpow1 op2).result = (p8b.retry fpow1 op2).result)) :=
  ⟨⟨by decide, by decide⟩,
    result_passthrough p8a p8b fpow1 fpow1 op2 op2 (by decide) (by decide)⟩

/-- C9: `new` stores its five arguments verbatim with no validation, and for
every parameter choice the delay computation and its whole-millisecond `u64`
conversion are total: the cast always yields a valid `u64`, clamping a
negative (nonsensical) computed delay to zero rather than failing. -/
theorem new_verbatim_and_cast_total {T E : Type} (m : Nat) (c a b : ℚ)
    (s : Result T E → Bool) (fpow : ℚ → ℚ → ℚ) (rc : Nat) :
    (ExponentialBackoff.new m c a b s).should_retry = s ∧
    (ExponentialBackoff.new m c a b s).max_retries = m ∧
    (ExponentialBackoff.new m c a b s).constant = c ∧
    (ExponentialBackoff.new m c a b s).coefficient = a ∧
    (ExponentialBackoff.new m c a b s).exponent = b ∧
    toU64 ((ExponentialBackoff.new m c a b s).backoff_time fpow rc) ≤ 2 ^ 64 - 1 ∧
    ((ExponentialBackoff.new m c a b s).backoff_time fpow rc < 0 →
      toU64 ((ExponentialBackoff.new m c a b s).backoff_time fpow rc) = 0) := by
  refine ⟨rfl, rfl, rfl, rfl, rfl, ?_, ?_⟩
  · unfold toU64
    by_cases h : (ExponentialBackoff.new m c a b s).backoff_time fpow rc < 0
    · rw [if_pos h]
      omega
    · rw [if_neg h]
      omega
  · intro h
    unfold toU64
    rw [if_pos h]

/-- Witness for C9: a policy with negative `constant` stores it verbatim and
its (negative) computed delay clamps to zero milliseconds. -/
theorem new_verbatim_and_cast_total_witness :
    p9.max_retries = 3 ∧ p9.constant = -5 ∧ toU64 (p9.backoff_time fpow1 1) = 0 :=
  ⟨(new_verbatim_and_cast_total 3 (-5) 0 1 w9 fpow1 1).2.1,
    (new_verbatim_and_cast_total 3 (-5) 0 1 w9 fpow1 1).2.2.1,
    (new_verbatim_and_cast_total 3 (-5) 0 1 w9 fpow1 1).2.2.2.2.2.2
      (by norm_num [ExponentialBackoff.backoff_time, ExponentialBackoff.new, fpow1])⟩

/-- C5 (counterexample): for the default policy (`constant = 0`,
`coefficient = 1000`, `exponent = 0.5`, `max_retries = 7`), the sum over
`n = 1..7` of the ideal per-attempt delay `constant + coefficient * n ^ exponent`
milliseconds is below 14000 ms — nowhere near the claimed ≈61 seconds — and a
worst-case run (every attempt retried) performs only 6 inter-attempt delays,
not 7. -/
theorem default_total_wait_not_61s :
    (Finset.Icc (1:ℕ) 7).sum
      (fun n => (default_policy.constant : ℝ) + (default_policy.coefficient : ℝ) *
        (n : ℝ) ^ ((default_policy.exponent : ℝ))) < 14000 ∧
    (14000 : ℝ) < 61000 ∧
    (default_policy.retry fpow0 op2).delays.length = 6 := by
  refine ⟨?_, by norm_num, by decide⟩
  have hconst : (default_policy.constant : ℝ) = 0 := by
    norm_num [default_policy, ExponentialBackoff.new_with_defaults, ExponentialBackoff.new]
  have hcoeff : (default_policy.coefficient : ℝ) = 1000 := by
    norm_num [default_policy, ExponentialBackoff.new_with_defaults, ExponentialBackoff.new]
  have hexp : ((default_policy.exponent : ℚ) : ℝ) = 1 / 2 := by
    norm_num [default_policy, ExponentialBackoff.new_with_defaults, ExponentialBackoff.new]
  simp only [hconst, hcoeff, hexp, zero_add, ← Real.sqrt_eq_rpow]
  have hset : Finset.Icc (1:ℕ) 7 = {1, 2, 3, 4, 5, 6, 7} := by decide
  rw [hset, Finset.sum_insert (by decide), Finset.sum_insert (by decide),
    Finset.sum_insert (by decide), Finset.sum_insert (by decide),
    Finset.sum_insert (by decide), Finset.sum_insert (by decide),
    Finset.sum_singleton]
  push_cast
  have s1 : Real.sqrt 1 = 1 := Real.sqrt_one
  have s2 : Real.sqrt 2 ≤ 1.42 := sqrt_le_of_sq_le 2 1.42 (by norm_num) (by norm_num)
  have s3 : Real.sqrt 3 ≤ 1.74 := sqrt_le_of_sq_le 3 1.74 (by norm_num) (by norm_num)
  have s4 : Real.sqrt 4 ≤ 2 := sqrt_le_of_sq_le 4 2 (by norm_num) (by norm_num)
  have s5 : Real.sqrt 5 ≤ 2.24 := sqrt_le_of_sq_le 5 2.24 (by norm_num) (by norm_num)
  have s6 : Real.sqrt 6 ≤ 2.45 := sqrt_le_of_sq_le 6 2.45 (by norm_num) (by norm_num)
  have s7 : Real.sqrt 7 ≤ 2.65 := sqrt_le_of_sq_le 7 2.65 (by norm_num) (by norm_num)
  linarith

/-- C5 (amended): for the default policy the worst-case total wait is the sum
of the 6 inter-attempt delays (none follows the 7th, final attempt), ideally
the sum over `n = 1..6` of `1000 * n ^ 0.5` ms, which lies strictly between
10 and 11 seconds (≈10.8 s), not ≈61 s. -/
theorem default_total_wait_approx :
    (10000 : ℝ) <
      (Finset.Icc (1:ℕ) 6).sum
        (fun n => (default_policy.constant : ℝ) + (default_policy.coefficient : ℝ) *
          (n : ℝ) ^ ((default_policy.exponent : ℝ))) ∧
    (Finset.Icc (1:ℕ) 6).sum
      (fun n => (default_policy.constant : ℝ) + (default_policy.coefficient : ℝ) *
        (n : ℝ) ^ ((default_policy.exponent : ℝ))) < 11000 ∧
    ∀ fpow : ℚ → ℚ → ℚ, (default_policy.retry fpow op2).delays.length = 6 := by
  have hconst : (default_policy.constant : ℝ) = 0 := by
    norm_num [default_policy, ExponentialBackoff.new_with_defaults, ExponentialBackoff.new]
  have hcoeff : (default_policy.coefficient : ℝ) = 1000 := by
    norm_num [default_policy, ExponentialBackoff.new_with_defaults, ExponentialBackoff.new]
  have hexp : ((default_policy.exponent : ℚ) : ℝ) = 1 / 2 := by
    norm_num [default_policy, ExponentialBackoff.new_with_defaults, ExponentialBackoff.new]
  have hset : Finset.Icc (1:ℕ) 6 = {1, 2, 3, 4, 5, 6} := by decide
  have hlen : ∀ fpow : ℚ → ℚ → ℚ, (default_policy.retry fpow op2).delays.length = 6 := by
    intro fpow
    obtain ⟨b1, b2, b3, b4, b5, b6⟩ := retry_spec default_policy fpow op2 (by decide)
    have hstop : stops default_policy op2 7 = true := by decide
    have hmin' : ∀ j, j < 7 → (1 ≤ j → stops default_policy op2 j = false) := by decide
    have hatt := attempts_eq_first_stop default_policy fpow op2 (by decide) 7
      (by decide) hstop (fun j hj1 hj2 => hmin' j hj2 hj1)
    rw [b5, hatt]
    simp
  refine ⟨?_, ?_, hlen⟩ <;>
  · simp only [hconst, hcoeff, hexp, zero_add, ← Real.sqrt_eq_rpow]
    rw [hset, Finset.sum_insert (by decide), Finset.sum_insert (by decide),
      Finset.sum_insert (by decide), Finset.sum_insert (by decide),
      Finset.sum_insert (by decide), Finset.sum_singleton]
    push_cast
    have s1 : Real.sqrt 1 = 1 := Real.sqrt_one
    have s2l : (1.41 : ℝ) ≤ Real.sqrt 2 := le_sqrt_of_sq_le 1.41 2 (by norm_num) (by norm_num)
    have s2u : Real.sqrt 2 ≤ 1.42 := sqrt_le_of_sq_le 2 1.42 (by norm_num) (by norm_num)
    have s3l : (1.73 : ℝ) ≤ Real.sqrt 3 := le_sqrt_of_sq_le 1.73 3 (by norm_num) (by norm_num)
    have s3u : Real.sqrt 3 ≤ 1.74 := sqrt_le_of_sq_le 3 1.74 (by norm_num) (by norm_num)
    have s4l : (2 : ℝ) ≤ Real.sqrt 4 := le_sqrt_of_sq_le 2 4 (by norm_num) (by norm_num)
    have s4u : Real.sqrt 4 ≤ 2 := sqrt_le_of_sq_le 4 2 (by norm_num) (by norm_num)
    have s5l : (2.23 : ℝ) ≤ Real.sqrt 5 := le_sqrt_of_sq_le 2.23 5 (by norm_num) (by norm_num)
    have s5u : Real.sqrt 5 ≤ 2.24 := sqrt_le_of_sq_le 5 2.24 (by norm_num) (by norm_num)
    have s6l : (2.44 : ℝ) ≤ Real.sqrt 6 := le_sqrt_of_sq_le 2.44 6 (by norm_num) (by norm_num)
    have s6u : Real.sqrt 6 ≤ 2.45 := sqrt_le_of_sq_le 6 2.45 (by norm_num) (by norm_num)
    linarith

/-- C10: with `max_retries = 0` and an always-true predicate, the wrap-around
`u8` counter first equals `0` again after 256 increments, so the operation is
invoked exactly 256 times and the 256-th result is returned. -/
theorem zero_cap_wraparound {T E : Type} (self : ExponentialBackoff T E)
    (fpow : ℚ → ℚ → ℚ) (op : Nat → Result T E)
    (hm : self.max_retries = 0)
    (hpred : ∀ r, self.should_retry r = true) :
    (self.retry fpow op).attempts = 256 ∧
    (self.retry fpow op).result = op 256 := by
  have h255 : self.max_retries ≤ 255 := by omega
  obtain ⟨b1, b2, b3, b4, b5, b6⟩ := retry_spec self fpow op h255
  have hstop : stops self op 256 = true := by
    simp [stops, hm]
  have hmin : ∀ j, 1 ≤ j → j < 256 → stops self op j = false := by
    intro j hj1 hj2
    have hjmod : j % 256 = j := Nat.mod_eq_of_lt hj2
    have hne : j ≠ 0 := by omega
    simp [stops, hjmod, hpred, hm, hne]
  have hatt := attempts_eq_first_stop self fpow op h255 256 (by omega) hstop hmin
  exact ⟨hatt, by rw [b2, hatt]⟩

/-- Witness for C10 at a concrete zero-cap policy. -/
theorem zero_cap_wraparound_witness :
    p10.max_retries = 0 ∧
    ((p10.retry fpow0 op2).attempts = 256 ∧ (p10.retry fpow0 op2).result = op2 256) :=
  ⟨by decide, zero_cap_wraparound p10 fpow0 op2 (by decide) (fun _ => rfl)⟩

end RetrySpec
